import Mathlib

/-!
# Verification of the faser single-threaded io_uring runtime core

This development shallowly embeds the scheduling / notification /
driver-dispatch logic of the faser runtime and proves properties stated
about it.  Each Lean definition is translated from the corresponding Rust
item; the source file and item are named in the doc comment.  Stateful Rust
code (interior mutability through `Cell`/`RefCell`) becomes explicit state
passing; `io::Result` becomes `Except Nat` carrying the raw errno.
-/

namespace Faser

/-! ## Completion-queue dispatch (faser-uring/src/driver/mod.rs, `Driver::drain`)

A reaped completion entry carries a 64-bit user-data tag.  `Driver::drain`
inspects the tag and either handles the entry inline (sentinel tags) or
dispatches it to the operation record whose address the tag is.  Only the
tag matters for the routing decision, so the embedding works on the tag. -/

/-- Sentinel user-data tag signalling the shutdown drain Nop
(`Driver::DRAIN_TOKEN`). -/
def Driver.DRAIN_TOKEN : Nat := 0x01

/-- Sentinel user-data tag for unparker wake events
(`Driver::UNPARKER_WAKE_TOKEN`). -/
def Driver.UNPARKER_WAKE_TOKEN : Nat := 0x02

/-- Sentinel user-data tag for cancellation completions
(`Driver::CANCELLATION_TOKEN`). -/
def Driver.CANCELLATION_TOKEN : Nat := 0x03

/-- Sentinel user-data tag for close-fd completions
(`Driver::CLOSE_FD_TOKEN`). -/
def Driver.CLOSE_FD_TOKEN : Nat := 0x04

/-- Action `Driver::drain` takes for one completion entry, by user-data tag. -/
inductive CQEAction where
  /-- `DRAIN_TOKEN`: set the driver status to `Shutdown`. -/
  | setStatusShutdown
  /-- `UNPARKER_WAKE_TOKEN`: reset the unparker. -/
  | resetUnparker
  /-- `CANCELLATION_TOKEN`: ignored inline. -/
  | cancellationToken
  /-- `CLOSE_FD_TOKEN`: ignored inline (close errors are only logged). -/
  | closeFdToken
  /-- Tag ≤ 1024 that is none of the four sentinels: logged and skipped. -/
  | invalidUserData
  /-- Tag > 1024: dispatched to the operation record via `complete_operation`. -/
  | completeOperation (userData : Nat)
deriving DecidableEq, Repr

/-- Per-entry dispatch of `Driver::drain` (driver/mod.rs, the body of the
`for cqe in entries` loop), keyed on the entry's user-data value. -/
def Driver.drainDispatch (userData : Nat) : CQEAction :=
  if userData = Driver.DRAIN_TOKEN then .setStatusShutdown
  else if userData = Driver.UNPARKER_WAKE_TOKEN then .resetUnparker
  else if userData = Driver.CANCELLATION_TOKEN then .cancellationToken
  else if userData = Driver.CLOSE_FD_TOKEN then .closeFdToken
  else if userData ≤ 1024 then .invalidUserData
  else .completeOperation userData

/-- Actions taken for a drained batch of completion entries, in order. -/
def Driver.drainBatch (userDatas : List Nat) : List CQEAction :=
  userDatas.map Driver.drainDispatch

/-- C4: every completion entry whose user-data is at most 1024 is handled
inline as a sentinel and never dispatched to an operation record;
`complete_operation` is invoked exactly for entries whose user-data exceeds
1024; and the sentinel tags are DRAIN=1, UNPARKER=2, CANCEL=3, CLOSE_FD=4. -/
theorem driver_drain_sentinel_dispatch :
    (∀ userDatas : List Nat, ∀ u ∈ userDatas,
      ((∃ a, Driver.drainDispatch u = CQEAction.completeOperation a ∧
          a = u ∧ Driver.drainDispatch u ∈ Driver.drainBatch userDatas) ↔ 1024 < u)) ∧
    Driver.DRAIN_TOKEN = 1 ∧ Driver.UNPARKER_WAKE_TOKEN = 2 ∧
    Driver.CANCELLATION_TOKEN = 3 ∧ Driver.CLOSE_FD_TOKEN = 4 ∧
    Driver.drainDispatch Driver.DRAIN_TOKEN = CQEAction.setStatusShutdown ∧
    Driver.drainDispatch Driver.UNPARKER_WAKE_TOKEN = CQEAction.resetUnparker ∧
    Driver.drainDispatch Driver.CANCELLATION_TOKEN = CQEAction.cancellationToken ∧
    Driver.drainDispatch Driver.CLOSE_FD_TOKEN = CQEAction.closeFdToken := by
  refine ⟨?_, rfl, rfl, rfl, rfl, rfl, rfl, rfl, rfl⟩
  intro userDatas u hu
  constructor
  · rintro ⟨a, ha, rfl, -⟩
    by_contra hle
    push_neg at hle
    unfold Driver.drainDispatch at ha
    unfold Driver.DRAIN_TOKEN Driver.UNPARKER_WAKE_TOKEN
      Driver.CANCELLATION_TOKEN Driver.CLOSE_FD_TOKEN at ha
    split_ifs at ha
  · intro hgt
    refine ⟨u, ?_, rfl, List.mem_map_of_mem Driver.drainDispatch hu⟩
    unfold Driver.drainDispatch
    unfold Driver.DRAIN_TOKEN Driver.UNPARKER_WAKE_TOKEN
      Driver.CANCELLATION_TOKEN Driver.CLOSE_FD_TOKEN
    have h1 : u ≠ 1 := by omega
    have h2 : u ≠ 2 := by omega
    have h3 : u ≠ 3 := by omega
    have h4 : u ≠ 4 := by omega
    have h5 : ¬ u ≤ 1024 := by omega
    simp [h1, h2, h3, h4, h5]

/-! ## Notifier (faser-uring/src/util/notify.rs)

The notifier is an intrusive FIFO of waiter entries, each pinned at a
stable address.  The embedding gives every entry an id (standing for its
address): `entries` maps ids to entry payloads, `waiters` is the FIFO list
of linked ids. -/

/-- State of a waiter entry (notify.rs, `enum State`). -/
inductive NState where
  | unregistered
  | linked
  | fired
  | completed
deriving DecidableEq, Repr

/-- One intrusive waiter entry (notify.rs, `struct Entry`): its state and
the stored waker, modelled as an opaque waker id.  `alive` instruments
whether the owning `Notified` still exists; the Rust entry simply ceases to
exist on drop, and the flag lets the development count surviving
observers. -/
structure NEntry where
  state : NState
  waker : Option Nat
  alive : Bool
deriving DecidableEq, Repr

instance : Inhabited NEntry := ⟨⟨NState.unregistered, none, false⟩⟩

/-- State of a `Notify` (notify.rs, `struct Notify`) together with the
addressable pool of entries.  `wakeLog` records every waker woken, in
order; `notifyLog` records the argument of every `Notify::notify` call
(pure instrumentation, consulted by no operation). -/
structure NotifySt where
  entries : Nat → NEntry
  waiters : List Nat
  count : Nat
  wakeLog : List Nat
  notifyLog : List Nat

/-- Read the entry behind an id. -/
def NotifySt.get (st : NotifySt) (id : Nat) : NEntry :=
  st.entries id

/-- Replace the entry behind an id. -/
def NotifySt.set (st : NotifySt) (id : Nat) (e : NEntry) : NotifySt :=
  { st with entries := Function.update st.entries id e }

/-- `Entry::fire` (notify.rs): take the stored waker and wake it, then set
the state to `Fired`. -/
def NotifySt.fire (st : NotifySt) (id : Nat) : NotifySt :=
  let e := st.get id
  let st' := match e.waker with
    | some w => { st with wakeLog := st.wakeLog ++ [w] }
    | none => st
  st'.set id { e with waker := none, state := NState.fired }

/-- The `while removed != n` loop of `Notify::notify`: pop entries from the
front of the waiter list and fire them until either `n` entries have been
fired (`budget`, the remaining `n - removed`, reaches zero) or the list is
empty.  Returns the state, the number fired, and the remaining list. -/
def NotifySt.notifyLoop : NotifySt → Nat → List Nat → NotifySt × Nat × List Nat
  | st, 0, ws => (st, 0, ws)
  | st, _ + 1, [] => (st, 0, [])
  | st, budget + 1, id :: rest =>
    let r := NotifySt.notifyLoop (st.fire id) budget rest
    (r.1, r.2.1 + 1, r.2.2)

/-- `Notify::notify` (notify.rs): fire up to `n` front waiters, decrement
the waiter count by the number fired, and return that number. -/
def NotifySt.notify (st : NotifySt) (n : Nat) : NotifySt × Nat :=
  let r := st.notifyLoop n st.waiters
  ({ r.1 with
      waiters := r.2.2,
      count := r.1.count - r.2.1,
      notifyLog := r.1.notifyLog ++ [n] }, r.2.1)

/-- `Notify::cancel` (notify.rs): unlink a still-linked entry and decrement
the waiter count. -/
def NotifySt.cancel (st : NotifySt) (id : Nat) : NotifySt :=
  { st with count := st.count - 1, waiters := st.waiters.erase id }

/-- Instrumentation for the end of a `Notified`'s life: the entry stops
existing. -/
def NotifySt.markDead (st : NotifySt) (id : Nat) : NotifySt :=
  st.set id { st.get id with alive := false }

/-- `PinnedDrop for Notified` (notify.rs): on drop while `Linked`, unlink
via `Notify::cancel`; on drop while `Fired`, pass the notification on via
`notify(1)`; otherwise no list interaction. -/
def Notified.drop (st : NotifySt) (id : Nat) : NotifySt :=
  let stDead := st.markDead id
  match (st.get id).state with
  | NState.linked => stDead.cancel id
  | NState.fired => (stDead.notify 1).1
  | _ => stDead

/-- Outcome of polling a `Notified`. -/
inductive NPoll where
  | pending
  | ready
  | panicked
deriving DecidableEq, Repr

/-- `Future::poll for Notified` (notify.rs): register on first poll,
refresh the waker while linked, complete when fired; polling a completed
observer is `unreachable!()`. -/
def Notified.poll (st : NotifySt) (id : Nat) (w : Nat) : NotifySt × NPoll :=
  match (st.get id).state with
  | NState.unregistered =>
    let st' := st.set id { st.get id with state := NState.linked, waker := some w }
    ({ st' with waiters := st'.waiters ++ [id], count := st'.count + 1 }, NPoll.pending)
  | NState.linked => (st.set id { st.get id with waker := some w }, NPoll.pending)
  | NState.fired => (st.set id { st.get id with state := NState.completed }, NPoll.ready)
  | NState.completed => (st, NPoll.panicked)

/-! ### Basic lemmas about `fire` and the notify loop -/

theorem NotifySt.get_set_self (st : NotifySt) (id : Nat) (e : NEntry) :
    (st.set id e).get id = e := by
  simp [NotifySt.get, NotifySt.set]

theorem NotifySt.get_set_ne (st : NotifySt) {i j : Nat} (e : NEntry) (h : i ≠ j) :
    (st.set j e).get i = st.get i := by
  simp [NotifySt.get, NotifySt.set, Function.update_noteq h]

theorem NotifySt.fire_get_self (st : NotifySt) (id : Nat) :
    (st.fire id).get id = ⟨NState.fired, none, (st.get id).alive⟩ := by
  cases hw : (st.entries id).waker <;>
    simp [NotifySt.fire, NotifySt.get, NotifySt.set, hw]

theorem NotifySt.fire_get_ne (st : NotifySt) {i j : Nat} (h : i ≠ j) :
    (st.fire j).get i = st.get i := by
  cases hw : (st.entries j).waker <;>
    simp [NotifySt.fire, NotifySt.get, NotifySt.set, hw, Function.update_noteq h]

theorem NotifySt.fire_waiters (st : NotifySt) (id : Nat) :
    (st.fire id).waiters = st.waiters := by
  cases hw : (st.entries id).waker <;>
    simp [NotifySt.fire, NotifySt.get, NotifySt.set, hw]

theorem NotifySt.fire_count (st : NotifySt) (id : Nat) :
    (st.fire id).count = st.count := by
  cases hw : (st.entries id).waker <;>
    simp [NotifySt.fire, NotifySt.get, NotifySt.set, hw]

theorem NotifySt.fire_notifyLog (st : NotifySt) (id : Nat) :
    (st.fire id).notifyLog = st.notifyLog := by
  cases hw : (st.entries id).waker <;>
    simp [NotifySt.fire, NotifySt.get, NotifySt.set, hw]

theorem NotifySt.fire_wakeLog_mono (st : NotifySt) (id : Nat) {w : Nat}
    (h : w ∈ st.wakeLog) : w ∈ (st.fire id).wakeLog := by
  cases hw : (st.entries id).waker <;>
    simp [NotifySt.fire, NotifySt.get, NotifySt.set, hw, h]

theorem NotifySt.fire_wakeLog_self (st : NotifySt) (id : Nat) {w : Nat}
    (h : (st.get id).waker = some w) : w ∈ (st.fire id).wakeLog := by
  simp only [NotifySt.get] at h
  simp [NotifySt.fire, NotifySt.get, NotifySt.set, h]

/-- The notify loop fires exactly the first `min n length` waiters, in
order, leaving the rest. -/
theorem NotifySt.notifyLoop_eq (ws : List Nat) :
    ∀ (n : Nat) (st : NotifySt),
      st.notifyLoop n ws =
        ((ws.take n).foldl NotifySt.fire st, min n ws.length, ws.drop n) := by
  induction ws with
  | nil =>
    intro n st
    cases n <;> simp [NotifySt.notifyLoop]
  | cons id rest ih =>
    intro n st
    cases n with
    | zero => simp [NotifySt.notifyLoop]
    | succ m =>
      simp [NotifySt.notifyLoop, ih m (st.fire id), Nat.succ_min_succ]

/-! ### Lemmas about folding `fire` over a list of ids -/

theorem NotifySt.foldl_fire_waiters (l : List Nat) :
    ∀ st : NotifySt, (l.foldl NotifySt.fire st).waiters = st.waiters := by
  induction l with
  | nil => intro st; rfl
  | cons id rest ih => intro st; simp [List.foldl_cons, ih, NotifySt.fire_waiters]

theorem NotifySt.foldl_fire_count (l : List Nat) :
    ∀ st : NotifySt, (l.foldl NotifySt.fire st).count = st.count := by
  induction l with
  | nil => intro st; rfl
  | cons id rest ih => intro st; simp [List.foldl_cons, ih, NotifySt.fire_count]

theorem NotifySt.foldl_fire_notifyLog (l : List Nat) :
    ∀ st : NotifySt, (l.foldl NotifySt.fire st).notifyLog = st.notifyLog := by
  induction l with
  | nil => intro st; rfl
  | cons id rest ih => intro st; simp [List.foldl_cons, ih, NotifySt.fire_notifyLog]

theorem NotifySt.foldl_fire_wakeLog_mono (l : List Nat) :
    ∀ (st : NotifySt) (w : Nat), w ∈ st.wakeLog →
      w ∈ (l.foldl NotifySt.fire st).wakeLog := by
  induction l with
  | nil => intro st w h; exact h
  | cons id rest ih =>
    intro st w h
    exact ih _ w (NotifySt.fire_wakeLog_mono st id h)

theorem NotifySt.foldl_fire_get_ne (l : List Nat) :
    ∀ (st : NotifySt) (id : Nat), id ∉ l →
      (l.foldl NotifySt.fire st).get id = st.get id := by
  induction l with
  | nil => intro st id _; rfl
  | cons j rest ih =>
    intro st id h
    have hne : id ≠ j := fun hc => h (hc ▸ List.mem_cons_self j rest)
    have hrest : id ∉ rest := fun hc => h (List.mem_cons_of_mem j hc)
    simp only [List.foldl_cons]
    rw [ih _ id hrest, NotifySt.fire_get_ne st hne]

theorem NotifySt.fire_preserves_fired (st : NotifySt) (id j : Nat)
    (h : (st.get id).state = NState.fired) :
    ((st.fire j).get id).state = NState.fired := by
  rcases eq_or_ne id j with rfl | hne
  · rw [NotifySt.fire_get_self]
  · rw [NotifySt.fire_get_ne st hne]; exact h

theorem NotifySt.fire_preserves_alive (st : NotifySt) (id j : Nat) :
    ((st.fire j).get id).alive = (st.get id).alive := by
  rcases eq_or_ne id j with rfl | hne
  · rw [NotifySt.fire_get_self]
  · rw [NotifySt.fire_get_ne st hne]

theorem NotifySt.foldl_fire_fired (l : List Nat) :
    ∀ (st : NotifySt) (id : Nat), id ∈ l →
      ((l.foldl NotifySt.fire st).get id).state = NState.fired := by
  induction l with
  | nil => intro st id h; cases h
  | cons j rest ih =>
    intro st id h
    rcases List.mem_cons.mp h with rfl | hmem
    · by_cases hr : id ∈ rest
      · exact ih _ id hr
      · simp only [List.foldl_cons]
        rw [NotifySt.foldl_fire_get_ne rest _ id hr, NotifySt.fire_get_self]
    · exact ih _ id hmem

theorem NotifySt.foldl_fire_alive (l : List Nat) :
    ∀ (st : NotifySt) (id : Nat),
      ((l.foldl NotifySt.fire st).get id).alive = (st.get id).alive := by
  induction l with
  | nil => intro st id; rfl
  | cons j rest ih =>
    intro st id
    simp only [List.foldl_cons]
    rw [ih, NotifySt.fire_preserves_alive]

/-- C2: `Notify::notify(n)` removes entries from the front of the waiter
list in FIFO order (the survivors are exactly the entries past the first
`n`), fires each removed entry (its state becomes `Fired` and its stored
waker is woken), and returns the number fired, which equals the minimum of
`n` and the current waiter count; the waiter count decreases by exactly
that number. -/
theorem notify_fires_front_fifo (st : NotifySt) (n : Nat)
    (hcount : st.count = st.waiters.length) (hnodup : st.waiters.Nodup) :
    (st.notify n).2 = min n st.count ∧
    (st.notify n).1.waiters = st.waiters.drop n ∧
    (st.notify n).1.count = st.count - (st.notify n).2 ∧
    (∀ id ∈ st.waiters.take n, ((st.notify n).1.get id).state = NState.fired) ∧
    (∀ id ∈ st.waiters.take n, ∀ w, (st.get id).waker = some w →
        w ∈ (st.notify n).1.wakeLog) := by
  have hloop := NotifySt.notifyLoop_eq st.waiters n st
  have hres : st.notify n =
      ({ (st.waiters.take n).foldl NotifySt.fire st with
          waiters := st.waiters.drop n,
          count := ((st.waiters.take n).foldl NotifySt.fire st).count -
            min n st.waiters.length,
          notifyLog := ((st.waiters.take n).foldl NotifySt.fire st).notifyLog ++ [n] },
        min n st.waiters.length) := by
    simp [NotifySt.notify, hloop]
  refine ⟨?_, ?_, ?_, ?_, ?_⟩
  · rw [hres, hcount]
  · rw [hres]
  · rw [hres]
    simp [NotifySt.foldl_fire_count, hcount]
  · intro id hid
    have : (((st.waiters.take n).foldl NotifySt.fire st).get id).state = NState.fired :=
      NotifySt.foldl_fire_fired _ _ _ hid
    rw [hres]
    simpa [NotifySt.get] using this
  · intro id hid w hw
    obtain ⟨s, t, hsplit⟩ := List.append_of_mem hid
    have htake_nd : (st.waiters.take n).Nodup := by
      have hsub : List.Sublist (st.waiters.take n) st.waiters :=
        List.take_sublist n st.waiters
      exact hsub.nodup hnodup
    have hids : id ∉ s := by
      rw [hsplit] at htake_nd
      rcases List.nodup_append.mp htake_nd with ⟨-, -, hdisj⟩
      intro hc
      exact hdisj hc (List.mem_cons_self id t)
    have hgs : (s.foldl NotifySt.fire st).get id = st.get id :=
      NotifySt.foldl_fire_get_ne s st id hids
    have hmem : w ∈ (((s.foldl NotifySt.fire st).fire id).wakeLog) :=
      NotifySt.fire_wakeLog_self _ _ (by rw [hgs]; exact hw)
    have : w ∈ (((st.waiters.take n).foldl NotifySt.fire st).wakeLog) := by
      rw [hsplit, List.foldl_append, List.foldl_cons]
      exact NotifySt.foldl_fire_wakeLog_mono t _ w hmem
    rw [hres]
    simpa using this

/-- Concrete three-waiter notifier used by the witnesses: entries 0, 1, 2
are linked with wakers 10, 11, 12. -/
def sampleNotify : NotifySt where
  entries := fun id => if id < 3 then ⟨NState.linked, some (10 + id), true⟩ else default
  waiters := [0, 1, 2]
  count := 3
  wakeLog := []
  notifyLog := []

/-- Witness for C2 at the concrete notifier `sampleNotify` with `n = 2`. -/
theorem notify_fires_front_fifo_witness :
    (sampleNotify.notify 2).2 = 2 ∧
    (sampleNotify.notify 2).1.waiters = [2] ∧
    ((sampleNotify.notify 2).1.get 0).state = NState.fired ∧
    10 ∈ (sampleNotify.notify 2).1.wakeLog := by
  have h := notify_fires_front_fifo sampleNotify 2 rfl (by decide)
  refine ⟨h.1.trans (by decide), h.2.1.trans (by decide), ?_, ?_⟩
  · exact h.2.2.2.1 0 (by decide)
  · exact h.2.2.2.2 0 (by decide) 10 (by decide)

/-! ### Drop-forwards semantics of `Notified` (C3) -/

theorem NotifySt.markDead_get_self (st : NotifySt) (id : Nat) :
    (st.markDead id).get id = { st.get id with alive := false } := by
  simp [NotifySt.markDead, NotifySt.get_set_self]

theorem NotifySt.markDead_get_ne (st : NotifySt) {i j : Nat} (h : i ≠ j) :
    (st.markDead j).get i = st.get i := by
  simp [NotifySt.markDead, NotifySt.get_set_ne _ _ h]

theorem NotifySt.markDead_waiters (st : NotifySt) (id : Nat) :
    (st.markDead id).waiters = st.waiters := rfl

theorem NotifySt.markDead_count (st : NotifySt) (id : Nat) :
    (st.markDead id).count = st.count := rfl

theorem NotifySt.markDead_notifyLog (st : NotifySt) (id : Nat) :
    (st.markDead id).notifyLog = st.notifyLog := rfl

/-- Counting helper: `countP` only depends on the predicate's values on the
list. -/
theorem countP_eq_of_agree {α : Type} (p q : α → Bool) :
    ∀ l : List α, (∀ a ∈ l, p a = q a) → l.countP p = l.countP q := by
  intro l
  induction l with
  | nil => intro _; rfl
  | cons x xs ih =>
    intro h
    rw [List.countP_cons, List.countP_cons,
      ih (fun a ha => h a (List.mem_cons_of_mem x ha)),
      h x (List.mem_cons_self x xs)]

/-- Counting helper: flipping one element of a duplicate-free list from
false to true raises the count by one. -/
theorem countP_flip_up {α : Type} (p q : α → Bool) (a : α) :
    ∀ l : List α, l.Nodup → a ∈ l → p a = false → q a = true →
      (∀ b ∈ l, b ≠ a → q b = p b) → l.countP q = l.countP p + 1 := by
  intro l
  induction l with
  | nil => intro _ h; cases h
  | cons x xs ih =>
    intro hnd hmem hpa hqa hagree
    rcases List.mem_cons.mp hmem with rfl | hmemxs
    · have hnin : a ∉ xs := (List.nodup_cons.mp hnd).1
      have hxs : xs.countP q = xs.countP p :=
        countP_eq_of_agree q p xs
          (fun b hb => hagree b (List.mem_cons_of_mem _ hb) (fun hc => hnin (hc ▸ hb)))
      rw [List.countP_cons, List.countP_cons, hpa, hqa, hxs]
      simp
    · have hxa : x ≠ a := by
        rintro rfl
        exact (List.nodup_cons.mp hnd).1 hmemxs
      have hxs := ih (List.nodup_cons.mp hnd).2 hmemxs hpa hqa
        (fun b hb hba => hagree b (List.mem_cons_of_mem _ hb) hba)
      rw [List.countP_cons, List.countP_cons,
        hagree x (List.mem_cons_self _ _) hxa, hxs]
      split_ifs <;> omega

theorem countP_eq_length_of_all {α : Type} (p : α → Bool) :
    ∀ l : List α, (∀ a ∈ l, p a = true) → l.countP p = l.length := by
  intro l
  induction l with
  | nil => intro _; rfl
  | cons x xs ih =>
    intro h
    rw [List.countP_cons, h x (List.mem_cons_self x xs),
      ih (fun a ha => h a (List.mem_cons_of_mem x ha))]
    simp

theorem countP_eq_zero_of_none {α : Type} (p : α → Bool) :
    ∀ l : List α, (∀ a ∈ l, p a = false) → l.countP p = 0 := by
  intro l
  induction l with
  | nil => intro _; rfl
  | cons x xs ih =>
    intro h
    rw [List.countP_cons, h x (List.mem_cons_self x xs),
      ih (fun a ha => h a (List.mem_cons_of_mem x ha))]
    simp

/-- Number of ids in `U` whose entry is currently `Fired` and whose owning
observer still exists.  These are the observers that are guaranteed to
complete their wait on their next poll. -/
def firedAliveAmong (st : NotifySt) (U : List Nat) : Nat :=
  U.countP (fun id => decide ((st.get id).state = NState.fired ∧ (st.get id).alive = true))

/-- Dropping each id of a list in turn (each drop runs the `PinnedDrop`
logic). -/
def dropAll : NotifySt → List Nat → NotifySt
  | st, [] => st
  | st, id :: rest => dropAll (Notified.drop st id) rest

/-- Dropping a `Fired` observer while the waiter list is nonempty runs
`notify(1)`, firing the front waiter. -/
theorem Notified.drop_fired_eq (st : NotifySt) (id w0 : Nat) (ws : List Nat)
    (hfired : (st.get id).state = NState.fired)
    (hw : st.waiters = w0 :: ws) :
    Notified.drop st id =
      { (st.markDead id).fire w0 with
          waiters := ws,
          count := st.count - 1,
          notifyLog := st.notifyLog ++ [1] } := by
  have hmw : (st.markDead id).waiters = w0 :: ws := by
    rw [NotifySt.markDead_waiters, hw]
  have hloop := NotifySt.notifyLoop_eq (w0 :: ws) 1 (st.markDead id)
  simp only [Notified.drop, hfired]
  unfold NotifySt.notify
  rw [hmw, hloop]
  simp [NotifySt.fire_count, NotifySt.fire_notifyLog, NotifySt.markDead_count,
    NotifySt.markDead_notifyLog]

/-- One drop of a fired observer conserves the number of fired-and-alive
observers, because the forwarded `notify(1)` fires the front waiter. -/
theorem drop_fired_metric_step (st : NotifySt) (id w0 : Nat) (ws U : List Nat)
    (hU : U.Nodup) (hidU : id ∈ U) (hw0U : w0 ∈ U)
    (hfired : (st.get id).state = NState.fired)
    (halive : (st.get id).alive = true)
    (hw : st.waiters = w0 :: ws)
    (hw0l : (st.get w0).state = NState.linked)
    (hw0a : (st.get w0).alive = true) :
    firedAliveAmong (Notified.drop st id) U = firedAliveAmong st U := by
  have hne : w0 ≠ id := by
    intro hc; rw [hc, hfired] at hw0l; cases hw0l
  rw [Notified.drop_fired_eq st id w0 ws hfired hw]
  have hrec : firedAliveAmong
      { (st.markDead id).fire w0 with
        waiters := ws,
        count := st.count - 1,
        notifyLog := st.notifyLog ++ [1] } U =
      firedAliveAmong ((st.markDead id).fire w0) U := rfl
  have h1 : firedAliveAmong st U = firedAliveAmong (st.markDead id) U + 1 := by
    refine countP_flip_up _ _ id U hU hidU ?_ ?_ ?_
    · simp [NotifySt.markDead_get_self]
    · simp [hfired, halive]
    · intro b _ hb
      simp [NotifySt.markDead_get_ne st hb]
  have h2 : firedAliveAmong ((st.markDead id).fire w0) U =
      firedAliveAmong (st.markDead id) U + 1 := by
    refine countP_flip_up _ _ w0 U hU hw0U ?_ ?_ ?_
    · simp [NotifySt.markDead_get_ne st hne, hw0l]
    · simp [NotifySt.fire_get_self, NotifySt.markDead_get_ne st hne, hw0a]
    · intro b _ hb
      simp [NotifySt.fire_get_ne _ hb]
  rw [hrec, h2, ← h1]

/-- Dropping any sequence of currently-fired observers conserves the number
of fired-and-alive observers, as long as enough linked waiters remain. -/
theorem dropAll_fired_metric (U : List Nat) (hU : U.Nodup) :
    ∀ (drops : List Nat) (st : NotifySt),
      st.count = st.waiters.length →
      st.waiters.Nodup →
      (∀ x ∈ st.waiters, (st.get x).state = NState.linked ∧ (st.get x).alive = true) →
      (∀ x ∈ st.waiters, x ∈ U) →
      drops.Nodup →
      (∀ x ∈ drops, (st.get x).state = NState.fired ∧ (st.get x).alive = true) →
      (∀ x ∈ drops, x ∈ U) →
      drops.length ≤ st.waiters.length →
      firedAliveAmong (dropAll st drops) U = firedAliveAmong st U := by
  intro drops
  induction drops with
  | nil => intro st _ _ _ _ _ _ _ _; rfl
  | cons id rest ih =>
    intro st hcount hwnd hlinked hwU hdnd hfired hdU hlen
    obtain ⟨w0, ws, hw⟩ : ∃ w0 ws, st.waiters = w0 :: ws := by
      cases hws : st.waiters with
      | nil => rw [hws] at hlen; simp at hlen
      | cons a l => exact ⟨a, l, rfl⟩
    have hidf := hfired id (List.mem_cons_self id rest)
    have hw0mem : w0 ∈ st.waiters := by rw [hw]; exact List.mem_cons_self w0 ws
    have hw0l := hlinked w0 hw0mem
    have hne : w0 ≠ id := by
      intro hc
      rw [hc, hidf.1] at hw0l
      cases hw0l.1
    have hstep := drop_fired_metric_step st id w0 ws U hU
      (hdU id (List.mem_cons_self id rest)) (hwU w0 hw0mem)
      hidf.1 hidf.2 hw hw0l.1 hw0l.2
    have hdropeq := Notified.drop_fired_eq st id w0 ws hidf.1 hw
    -- facts about the state after this drop
    have hgets : ∀ x, x ≠ id → x ≠ w0 →
        (Notified.drop st id).get x = st.get x := by
      intro x hxi hxw
      rw [hdropeq]
      show ((st.markDead id).fire w0).get x = st.get x
      rw [NotifySt.fire_get_ne _ hxw, NotifySt.markDead_get_ne _ hxi]
    have hgetw0 : ((Notified.drop st id).get w0).state = NState.fired ∧
        ((Notified.drop st id).get w0).alive = true := by
      rw [hdropeq]
      show (((st.markDead id).fire w0).get w0).state = NState.fired ∧
        (((st.markDead id).fire w0).get w0).alive = true
      rw [NotifySt.fire_get_self]
      exact ⟨rfl, by rw [NotifySt.markDead_get_ne _ hne]; exact hw0l.2⟩
    have hwaiters' : (Notified.drop st id).waiters = ws := by rw [hdropeq]
    have hcount' : (Notified.drop st id).count = st.count - 1 := by rw [hdropeq]
    have hwnd' : ws.Nodup := by
      rw [hw] at hwnd
      exact (List.nodup_cons.mp hwnd).2
    have hw0nin : w0 ∉ ws := by
      rw [hw] at hwnd
      exact (List.nodup_cons.mp hwnd).1
    have hdisj : ∀ x ∈ st.waiters, x ∉ (id :: rest) := by
      intro x hx hc
      have h1 := (hlinked x hx).1
      have h2 := (hfired x hc).1
      rw [h1] at h2
      cases h2
    -- apply the induction hypothesis at the post-drop state
    have hrec := ih (Notified.drop st id)
      (by rw [hcount', hwaiters', hcount, hw]; simp)
      (by rw [hwaiters']; exact hwnd')
      (by
        intro x hx
        have hxw : x ∈ st.waiters := by rw [hw]; exact List.mem_cons_of_mem w0 (hwaiters' ▸ hx)
        have hxi : x ≠ id := fun hc =>
          hdisj x hxw (hc ▸ List.mem_cons_self id rest)
        have hxw0 : x ≠ w0 := fun hc => hw0nin (hc ▸ (hwaiters' ▸ hx))
        rw [hgets x hxi hxw0]
        exact hlinked x hxw)
      (by
        intro x hx
        exact hwU x (by rw [hw]; exact List.mem_cons_of_mem w0 (hwaiters' ▸ hx)))
      ((List.nodup_cons.mp hdnd).2)
      (by
        intro x hx
        have hxi : x ≠ id := fun hc => (List.nodup_cons.mp hdnd).1 (hc ▸ hx)
        have hxf := hfired x (List.mem_cons_of_mem id hx)
        have hxw0 : x ≠ w0 := by
          intro hc
          rw [← hc, hxf.1] at hw0l
          cases hw0l.1
        rw [hgets x hxi hxw0]
        exact hxf)
      (fun x hx => hdU x (List.mem_cons_of_mem id hx))
      (by
        rw [hwaiters']
        rw [hw] at hlen
        simpa using Nat.le_of_succ_le_succ hlen)
    calc firedAliveAmong (dropAll st (id :: rest)) U
        = firedAliveAmong (dropAll (Notified.drop st id) rest) U := rfl
      _ = firedAliveAmong (Notified.drop st id) U := hrec
      _ = firedAliveAmong st U := hstep

/-- C3: dropping a `Notified` whose entry is `Linked` unlinks it from the
waiter list and decrements the waiter count; dropping one whose entry is
`Fired` invokes `notify(1)` on its `Notify`; consequently, after
`notify(n)` on a notifier with enough linked waiters, dropping any `k`
distinct fired observers still leaves exactly `n` fired observers alive to
complete their wait. -/
theorem notified_drop_forwards :
    (∀ (st : NotifySt) (id : Nat), (st.get id).state = NState.linked →
      (Notified.drop st id).waiters = st.waiters.erase id ∧
      (Notified.drop st id).count = st.count - 1) ∧
    (∀ (st : NotifySt) (id : Nat), (st.get id).state = NState.fired →
      Notified.drop st id = ((st.markDead id).notify 1).1) ∧
    (∀ (st : NotifySt) (n : Nat) (drops : List Nat),
      st.count = st.waiters.length →
      st.waiters.Nodup →
      (∀ x ∈ st.waiters, (st.get x).state = NState.linked ∧ (st.get x).alive = true) →
      drops.Nodup →
      (∀ x ∈ drops, x ∈ st.waiters.take n) →
      n + drops.length ≤ st.count →
      firedAliveAmong (dropAll (st.notify n).1 drops) st.waiters = n) := by
  refine ⟨?_, ?_, ?_⟩
  · intro st id h
    constructor <;>
      simp [Notified.drop, h, NotifySt.cancel, NotifySt.markDead_waiters,
        NotifySt.markDead_count, NotifySt.markDead, NotifySt.set]
  · intro st id h
    simp [Notified.drop, h]
  · intro st n drops hcount hnodup hlinked hdnd hdsub hlen
    have hnlen : n ≤ st.waiters.length := by
      rw [← hcount]; omega
    have hloop := NotifySt.notifyLoop_eq st.waiters n st
    have hres : st.notify n =
        ({ (st.waiters.take n).foldl NotifySt.fire st with
            waiters := st.waiters.drop n,
            count := ((st.waiters.take n).foldl NotifySt.fire st).count -
              min n st.waiters.length,
            notifyLog := ((st.waiters.take n).foldl NotifySt.fire st).notifyLog ++ [n] },
          min n st.waiters.length) := by
      simp [NotifySt.notify, hloop]
    have hdisj : ∀ x ∈ st.waiters.drop n, x ∉ st.waiters.take n := by
      have hnd := hnodup
      rw [← List.take_append_drop n st.waiters] at hnd
      rcases List.nodup_append.mp hnd with ⟨-, -, hdj⟩
      exact fun x hx hc => hdj hc hx
    have hget1 : ∀ x, (st.notify n).1.get x =
        ((st.waiters.take n).foldl NotifySt.fire st).get x := by
      intro x; rw [hres]; rfl
    -- the state right after notify(n) has exactly n fired-alive observers
    have hmetric1 : firedAliveAmong (st.notify n).1 st.waiters = n := by
      unfold firedAliveAmong
      have hpcongr : ∀ l : List Nat, l.countP
          (fun id => decide (((st.notify n).1.get id).state = NState.fired ∧
            ((st.notify n).1.get id).alive = true)) = l.countP
          (fun id => decide
            ((((st.waiters.take n).foldl NotifySt.fire st).get id).state = NState.fired ∧
              (((st.waiters.take n).foldl NotifySt.fire st).get id).alive = true)) := by
        intro l
        apply countP_eq_of_agree
        intro a _
        rw [hget1]
      rw [hpcongr]
      have hsplit := List.take_append_drop n st.waiters
      have htake : (st.waiters.take n).countP
          (fun id => decide
            ((((st.waiters.take n).foldl NotifySt.fire st).get id).state = NState.fired ∧
              (((st.waiters.take n).foldl NotifySt.fire st).get id).alive = true)) =
          (st.waiters.take n).length := by
        apply countP_eq_length_of_all
        intro a ha
        have h1 := NotifySt.foldl_fire_fired (st.waiters.take n) st a ha
        have h2 : (((st.waiters.take n).foldl NotifySt.fire st).get a).alive = true := by
          rw [NotifySt.foldl_fire_alive]
          exact (hlinked a (List.take_subset n st.waiters ha)).2
        simp [h1, h2]
      have hdrop : (st.waiters.drop n).countP
          (fun id => decide
            ((((st.waiters.take n).foldl NotifySt.fire st).get id).state = NState.fired ∧
              (((st.waiters.take n).foldl NotifySt.fire st).get id).alive = true)) = 0 := by
        apply countP_eq_zero_of_none
        intro a ha
        have hnin : a ∉ st.waiters.take n := hdisj a ha
        rw [NotifySt.foldl_fire_get_ne _ _ _ hnin]
        have := (hlinked a (List.drop_subset n st.waiters ha)).1
        simp [this]
      calc st.waiters.countP _
          = (st.waiters.take n ++ st.waiters.drop n).countP _ := by rw [hsplit]
        _ = n := by
            rw [List.countP_append, htake, hdrop, List.length_take,
              Nat.min_eq_left hnlen]
            omega
    -- dropping the k fired observers conserves the metric
    have hpreserve := dropAll_fired_metric st.waiters hnodup drops (st.notify n).1
      (by
        rw [hres]
        show ((st.waiters.take n).foldl NotifySt.fire st).count -
            min n st.waiters.length = (st.waiters.drop n).length
        rw [NotifySt.foldl_fire_count, hcount, List.length_drop, Nat.min_eq_left hnlen])
      (by
        rw [hres]
        show (st.waiters.drop n).Nodup
        exact (List.drop_sublist n st.waiters).nodup hnodup)
      (by
        intro x hx
        have hxd : x ∈ st.waiters.drop n := by
          revert hx
          rw [hres]
          exact fun hx => hx
        have hnin : x ∉ st.waiters.take n := hdisj x hxd
        rw [hget1, NotifySt.foldl_fire_get_ne _ _ _ hnin]
        exact hlinked x (List.drop_subset n st.waiters hxd))
      (by
        intro x hx
        have hxd : x ∈ st.waiters.drop n := by
          revert hx
          rw [hres]
          exact fun hx => hx
        exact List.drop_subset n st.waiters hxd)
      hdnd
      (by
        intro x hx
        have hxt := hdsub x hx
        constructor
        · rw [hget1]
          exact NotifySt.foldl_fire_fired _ _ _ hxt
        · rw [hget1, NotifySt.foldl_fire_alive]
          exact (hlinked x (List.take_subset n st.waiters hxt)).2)
      (fun x hx => List.take_subset n st.waiters (hdsub x hx))
      (by
        rw [hres]
        show drops.length ≤ (st.waiters.drop n).length
        rw [List.length_drop]
        omega)
    rw [hpreserve, hmetric1]

/-- Witness for C3: in `sampleNotify`, dropping linked entry 1 unlinks it;
and after `notify(1)` fires entry 0, dropping entry 0 forwards the
notification so one fired observer remains. -/
theorem notified_drop_forwards_witness :
    (Notified.drop sampleNotify 1).waiters = [0, 2] ∧
    (Notified.drop sampleNotify 1).count = 2 ∧
    firedAliveAmong (dropAll (sampleNotify.notify 1).1 [0]) sampleNotify.waiters = 1 := by
  have ha := notified_drop_forwards.1 sampleNotify 1 (by decide)
  have hc := notified_drop_forwards.2.2 sampleNotify 1 [0] rfl (by decide)
    (by decide) (by decide) (by decide) (by decide)
  exact ⟨ha.1.trans (by decide), ha.2.trans (by decide), hc⟩

/-! ## Batch submission and backpressure (driver/mod.rs, `Shared::submit`) -/

/-- Park mode passed by the executor to `Park::park` (faser-executor's park
API, as consumed by driver/mod.rs). -/
inductive ParkMode where
  | noPark
  | nextCompletion
  | timeout (nanos : Nat)
deriving DecidableEq, Repr

/-- `Shared::submit` (driver/mod.rs): submit all pending entries, blocking
according to `mode`; on success notify the backpressure observers with the
number of entries submitted and return that number.  The kernel call is
abstracted by `ringResult`, the value the mode-selected
`submit`/`submit_with_args` call produced: `Except.error e` an errno,
`Except.ok k` the number of entries submitted.  Errors propagate via `?`
before the notify runs. -/
def Shared.submit (mode : ParkMode) (ringResult : Except Nat Nat)
    (backpressure : NotifySt) : Except Nat (Nat × NotifySt) :=
  match mode, ringResult with
  | _, .error e => .error e
  | _, .ok submitted => .ok (submitted, (backpressure.notify submitted).1)

/-- C7: after every successful batch submission, the driver notifies the
backpressure observers exactly once, with a count equal to the number of
entries submitted in that batch (the notify log grows by exactly the one
entry `k`); a failed submission performs no notification. -/
theorem submit_notifies_backpressure_once (mode : ParkMode) (bp : NotifySt)
    (ringResult : Except Nat Nat) :
    (∀ e, ringResult = Except.error e →
      Shared.submit mode ringResult bp = Except.error e) ∧
    (∀ k, ringResult = Except.ok k →
      Shared.submit mode ringResult bp = Except.ok (k, (bp.notify k).1) ∧
      ((bp.notify k).1).notifyLog = bp.notifyLog ++ [k]) := by
  constructor
  · rintro e rfl
    cases mode <;> rfl
  · rintro k rfl
    have hlog : ((bp.notify k).1).notifyLog = bp.notifyLog ++ [k] := by
      unfold NotifySt.notify
      rw [NotifySt.notifyLoop_eq]
      simp [NotifySt.foldl_fire_notifyLog]
    exact ⟨by cases mode <;> rfl, hlog⟩

/-- Witness for C7: submitting a successful batch of 2 entries against the
concrete notifier performs exactly one `notify(2)`. -/
theorem submit_notifies_backpressure_once_witness :
    Shared.submit ParkMode.noPark (Except.ok 2) sampleNotify =
      Except.ok (2, (sampleNotify.notify 2).1) ∧
    ((sampleNotify.notify 2).1).notifyLog = [2] := by
  have h := (submit_notifies_backpressure_once ParkMode.noPark sampleNotify
    (Except.ok 2)).2 2 rfl
  exact ⟨h.1, h.2.trans (by decide)⟩

/-! ## Park error handling (driver/mod.rs `Driver::park`;
faser-executor/src/lib.rs `LocalExecutor::block_on`) -/

/-- Errno of an interrupted syscall (libc::EINTR). -/
def EINTR : Nat := 4

/-- Errno of a busy ring (libc::EBUSY). -/
def EBUSY : Nat := 16

/-- Events observable during `Driver::park`'s retry loop. -/
inductive ParkEvent where
  | attempt (mode : ParkMode) (outcome : Except Nat Nat)
  | drainCompletions
deriving Repr

/-- The retry loop of `Driver::park` (driver/mod.rs): `outcomes` is the
sequence of results the inner `submit` calls produce, consumed one per
attempt.  On EBUSY the driver drains the completion queue and retries with
`NoPark`; on EINTR it retries with the same mode; success ends the loop
with `Ok(())`; any other error ends it with that error.  The first
component is `none` when the supplied sequence runs out with the loop still
spinning; the second is the trace of attempts and drains. -/
def Driver.parkLoop : List (Except Nat Nat) → ParkMode →
    Option (Except Nat Unit) × List ParkEvent
  | [], _ => (none, [])
  | o :: rest, mode =>
    match o with
    | .ok n => (some (.ok ()), [.attempt mode (.ok n)])
    | .error e =>
      if e = EBUSY then
        let r := Driver.parkLoop rest ParkMode.noPark
        (r.1, .attempt mode (.error e) :: .drainCompletions :: r.2)
      else if e = EINTR then
        let r := Driver.parkLoop rest mode
        (r.1, .attempt mode (.error e) :: r.2)
      else (some (.error e), [.attempt mode (.error e)])

/-- `Driver::park` (driver/mod.rs): drain first — forcing `NoPark` if
anything was drained — then run the retry loop. -/
def Driver.park (initialDrained : Nat) (outcomes : List (Except Nat Nat))
    (mode : ParkMode) : Option (Except Nat Unit) × List ParkEvent :=
  Driver.parkLoop outcomes (if 0 < initialDrained then ParkMode.noPark else mode)

/-- What `LocalExecutor::block_on` does with the value of
`self.park.park(mode)`. -/
inductive UnwrapOutcome where
  /-- `Ok(())`: the loop continues. -/
  | continued
  /-- `Err(e)` hits `.unwrap()`: the executor thread panics. -/
  | panicked (errno : Nat)
  /-- Hypothetical outcome in which `block_on` hands the error back to its
  caller; the code has no such path, the constructor exists so the claim
  can be stated. -/
  | returnedToCaller (errno : Nat)
deriving DecidableEq, Repr

/-- The `self.park.park(mode).unwrap()` statement of
`LocalExecutor::block_on` (faser-executor/src/lib.rs line 52). -/
def LocalExecutor.afterPark : Except Nat Unit → UnwrapOutcome
  | .ok _ => UnwrapOutcome.continued
  | .error e => UnwrapOutcome.panicked e

/-- Counterexample to C6 as stated: a park error with errno 13 (EACCES,
neither EBUSY nor EINTR) makes `block_on` panic through `unwrap`; it is not
returned to `block_on`'s caller. -/
theorem park_error_panics_counterexample :
    LocalExecutor.afterPark (Except.error 13) = UnwrapOutcome.panicked 13 ∧
    LocalExecutor.afterPark (Except.error 13) ≠ UnwrapOutcome.returnedToCaller 13 := by
  exact ⟨rfl, by decide⟩

/-- C6 (amended): during `Driver::park`, an EBUSY submission result causes
a completion drain and a retry with mode `NoPark`, and an EINTR result
causes a retry with the same mode; neither is ever the loop's final error.
Any other submission error ends `Driver::park` with that error, and
`block_on` then panics on its `unwrap` of the park result rather than
returning the error to its caller. -/
theorem park_retries_ebusy_eintr :
    (∀ (rest : List (Except Nat Nat)) (mode : ParkMode),
      Driver.parkLoop (Except.error EBUSY :: rest) mode =
        ((Driver.parkLoop rest ParkMode.noPark).1,
          ParkEvent.attempt mode (Except.error EBUSY) :: ParkEvent.drainCompletions ::
            (Driver.parkLoop rest ParkMode.noPark).2)) ∧
    (∀ (rest : List (Except Nat Nat)) (mode : ParkMode),
      Driver.parkLoop (Except.error EINTR :: rest) mode =
        ((Driver.parkLoop rest mode).1,
          ParkEvent.attempt mode (Except.error EINTR) :: (Driver.parkLoop rest mode).2)) ∧
    (∀ (outcomes : List (Except Nat Nat)) (mode : ParkMode) (e : Nat),
      (Driver.parkLoop outcomes mode).1 = some (Except.error e) →
      e ≠ EBUSY ∧ e ≠ EINTR) ∧
    (∀ (e : Nat), e ≠ EBUSY → e ≠ EINTR →
      ∀ (rest : List (Except Nat Nat)) (mode : ParkMode),
        (Driver.parkLoop (Except.error e :: rest) mode).1 = some (Except.error e)) ∧
    (∀ e : Nat, LocalExecutor.afterPark (Except.error e) = UnwrapOutcome.panicked e) := by
  refine ⟨?_, ?_, ?_, ?_, fun e => rfl⟩
  · intro rest mode
    simp [Driver.parkLoop, EBUSY]
  · intro rest mode
    simp [Driver.parkLoop, EINTR, EBUSY]
  · intro outcomes
    induction outcomes with
    | nil => intro mode e h; simp [Driver.parkLoop] at h
    | cons o rest ih =>
      intro mode e h
      match o with
      | .ok n => simp [Driver.parkLoop] at h
      | .error e' =>
        by_cases hb : e' = EBUSY
        · rw [show Driver.parkLoop (Except.error e' :: rest) mode =
              ((Driver.parkLoop rest ParkMode.noPark).1,
                ParkEvent.attempt mode (Except.error e') :: ParkEvent.drainCompletions ::
                  (Driver.parkLoop rest ParkMode.noPark).2) by
              simp [Driver.parkLoop, hb]] at h
          exact ih ParkMode.noPark e h
        · by_cases hi : e' = EINTR
          · rw [show Driver.parkLoop (Except.error e' :: rest) mode =
                ((Driver.parkLoop rest mode).1,
                  ParkEvent.attempt mode (Except.error e') ::
                    (Driver.parkLoop rest mode).2) by
                simp [Driver.parkLoop, hb, hi, EINTR, EBUSY]] at h
            exact ih mode e h
          · rw [show Driver.parkLoop (Except.error e' :: rest) mode =
                (some (Except.error e'), [ParkEvent.attempt mode (Except.error e')]) by
                simp [Driver.parkLoop, hb, hi]] at h
            simp at h
            exact h ▸ ⟨hb, hi⟩
  · intro e hb hi rest mode
    simp [Driver.parkLoop, hb, hi]

/-- Witness for C6 (amended) at concrete inputs: an EBUSY then a success
ends the loop successfully, and a bare EACCES (13) surfaces and panics. -/
theorem park_retries_ebusy_eintr_witness :
    (Driver.parkLoop [Except.error EBUSY, Except.ok 1] ParkMode.nextCompletion).1 =
      some (Except.ok ()) ∧
    (Driver.parkLoop [Except.error 13] ParkMode.noPark).1 = some (Except.error 13) ∧
    LocalExecutor.afterPark (Except.error 13) = UnwrapOutcome.panicked 13 := by
  refine ⟨?_, ?_, park_retries_ebusy_eintr.2.2.2.2 13⟩
  · rw [park_retries_ebusy_eintr.1 [Except.ok 1] ParkMode.nextCompletion]
    rfl
  · exact park_retries_ebusy_eintr.2.2.2.1 13 (by decide) (by decide) [] ParkMode.noPark

/-! ## FD close-on-drop (faser-uring/src/fd.rs and driver/context.rs) -/

/-- Kind of a faser file descriptor (fd.rs, `enum FdKind`). -/
inductive FdKind where
  | fd (raw : Int)
  | fixed (idx : Nat)
deriving DecidableEq, Repr

/-- Result of `Drop for Inner` (fd.rs): either `Handle::current()` panicked
because no driver context is entered on this thread, or the close request
was submitted through the current handle (close errors are only logged). -/
inductive FdDropOutcome where
  | panicked
  | closeSubmitted (kind : FdKind)
deriving DecidableEq, Repr

/-- `DriverContext::handle()` (driver/context.rs): the thread-local current
handle, if a driver context has been entered. -/
def DriverContext.handle (ctx : Option Unit) : Option Unit := ctx

/-- `Drop for Inner` (fd.rs): `Handle::current()` reads the context and
`expect`s — panicking when absent — then submits the close via
`handle.close_fd(&self.kind)`. -/
def Inner.dropClose (ctx : Option Unit) (kind : FdKind) : FdDropOutcome :=
  match DriverContext.handle ctx with
  | none => FdDropOutcome.panicked
  | some _ => FdDropOutcome.closeSubmitted kind

/-- Dropping one clone of a `FaserFd` (an `Rc<Inner>`, fd.rs): only when
the reference count reaches zero does `Drop for Inner` run. -/
def FaserFd.dropClone (ctx : Option Unit) (refcount : Nat) (kind : FdKind) :
    Option FdDropOutcome × Nat :=
  if refcount ≤ 1 then (some (Inner.dropClose ctx kind), 0)
  else (none, refcount - 1)

/-- C9: dropping the final clone of an fd-backed resource runs the inner
drop, which resolves `Handle::current()`; outside a driver context this
panics instead of closing the descriptor, while inside a context the close
is submitted; dropping a non-final clone does nothing. -/
theorem fd_drop_outside_context_panics (kind : FdKind) :
    (∀ ctx : Option Unit,
      FaserFd.dropClone ctx 1 kind = (some (Inner.dropClose ctx kind), 0)) ∧
    Inner.dropClose none kind = FdDropOutcome.panicked ∧
    Inner.dropClose none kind ≠ FdDropOutcome.closeSubmitted kind ∧
    (∀ u, Inner.dropClose (some u) kind = FdDropOutcome.closeSubmitted kind) ∧
    (∀ rc, 2 ≤ rc → FaserFd.dropClone none rc kind = (none, rc - 1)) := by
  refine ⟨fun ctx => rfl, rfl, by simp [Inner.dropClose, DriverContext.handle],
    fun u => rfl, ?_⟩
  intro rc h
  simp [FaserFd.dropClone]
  omega

/-- Witness for C9 at a concrete raw fd. -/
theorem fd_drop_outside_context_panics_witness :
    FaserFd.dropClone none 1 (FdKind.fd 3) = (some FdDropOutcome.panicked, 0) ∧
    FaserFd.dropClone none 2 (FdKind.fd 3) = (none, 1) := by
  have h := fd_drop_outside_context_panics (FdKind.fd 3)
  refine ⟨(h.1 none).trans (by rw [h.2.1]), h.2.2.2.2 2 (by decide)⟩

/-! ## Buffer ownership round-trip (faser-uring/src/net/socket.rs) -/

/-- Result of one completion-queue entry as handed to an operation's
`complete` (operation API): the raw result split into errno/success, and
the CQE flags. -/
structure CQEResult where
  result : Except Nat Nat
  flags : Nat
deriving Repr

/-- Owned buffer handed to an I/O operation.  `ident` stands for the
allocation's identity (which heap object it is); `filled` is the `BufMut`
write cursor that `advance_mut` moves. -/
structure OwnedBuf where
  ident : Nat
  len : Nat
  filled : Nat
deriving DecidableEq, Repr

/-- `SendTo` operation payload (socket.rs, `struct SendTo`): the fd, the
buffer and the optional target address; the msghdr and iovec carry no state
that `complete` consults. -/
structure SendTo where
  fd : FdKind
  buf : OwnedBuf
  addr : Option Nat
deriving DecidableEq, Repr

/-- `Singleshot::complete for SendTo` (socket.rs): map the CQE result to a
byte count and hand back the owned buffer unchanged. -/
def SendTo.complete (op : SendTo) (res : CQEResult) : Except Nat Nat × OwnedBuf :=
  (res.result, op.buf)

/-- `RecvFrom` operation payload (socket.rs, `struct RecvFrom`); `addr` is
the socket-address slot the kernel fills. -/
structure RecvFrom where
  fd : FdKind
  buf : OwnedBuf
  addr : Nat
deriving DecidableEq, Repr

/-- `Singleshot::complete for RecvFrom` (socket.rs): on success advance the
buffer's write cursor by the bytes read and return `(count, addr)` together
with the buffer; on error return the error with the untouched buffer. -/
def RecvFrom.complete (op : RecvFrom) (res : CQEResult) :
    Except Nat (Nat × Nat) × OwnedBuf :=
  match res.result with
  | .ok n => (.ok (n, op.addr), { op.buf with filled := op.buf.filled + n })
  | .error e => (.error e, op.buf)

/-- C8: for the buffer-taking UDP operations, the buffer returned with the
completed future's output is the very buffer handed in — same allocation
identity and capacity — including when the operation's result is an error,
in which case it is returned entirely untouched. -/
theorem io_buffer_round_trip (res : CQEResult) :
    (∀ op : SendTo, (op.complete res).2 = op.buf) ∧
    (∀ op : RecvFrom,
      ((op.complete res).2).ident = op.buf.ident ∧
      ((op.complete res).2).len = op.buf.len ∧
      (∀ e, res.result = Except.error e → (op.complete res).2 = op.buf)) := by
  constructor
  · intro op; rfl
  · intro op
    refine ⟨?_, ?_, ?_⟩
    · cases h : res.result <;> simp [RecvFrom.complete, h]
    · cases h : res.result <;> simp [RecvFrom.complete, h]
    · intro e h
      simp [RecvFrom.complete, h]

/-- Witness for C8 at a concrete buffer, one success and one error. -/
theorem io_buffer_round_trip_witness :
    (RecvFrom.complete ⟨FdKind.fd 3, ⟨7, 16, 0⟩, 99⟩ ⟨Except.error 111, 0⟩).2 =
      ⟨7, 16, 0⟩ ∧
    ((RecvFrom.complete ⟨FdKind.fd 3, ⟨7, 16, 0⟩, 99⟩ ⟨Except.ok 5, 0⟩).2).ident = 7 := by
  constructor
  · exact (io_buffer_round_trip ⟨Except.error 111, 0⟩).2
      ⟨FdKind.fd 3, ⟨7, 16, 0⟩, 99⟩ |>.2.2 111 rfl
  · exact ((io_buffer_round_trip ⟨Except.ok 5, 0⟩).2 ⟨FdKind.fd 3, ⟨7, 16, 0⟩, 99⟩).1

/-! ## Task set, task queue (norn-task/src/tasks.rs and taskqueue.rs)

The task-cell internals (norn-task/src/task_cell.rs, join.rs,
future_cell.rs) are not under src/; the cell is modelled from the spec.
`TaskSet::bind`, `TaskSet::shutdown`, `TaskQueue::spawn/next/runnable/
shutdown` are embedded from the source files. -/

/-- Join error taxonomy (spec section 4.2). -/
inductive JoinErr where
  | cancelled
  | panicked
deriving DecidableEq, Repr

/-- Modelled from the spec: the body cell of a task allocation
(task_cell.rs / future_cell.rs are not under src/); the body transitions
Future → Output → Empty (spec section 3, Task cell). -/
inductive TaskBody (τ ω : Type) where
  | future (f : τ)
  | output (o : Except JoinErr ω)
  | empty
deriving Repr

/-- Modelled from the spec: a task cell as observable through its join
handle — the body plus the Complete state bit. -/
structure TaskCellM (τ ω : Type) where
  body : TaskBody τ ω
  complete : Bool
deriving Repr

/-- Modelled from the spec: `TaskCell::allocate` creates a cell holding the
future, not yet complete. -/
def TaskCellM.allocate (f : τ) : TaskCellM τ ω :=
  ⟨TaskBody.future f, false⟩

/-- Modelled from the spec: shutting a task down drops its future and
transitions the cell to Complete with Cancelled (spec section 4.2, task-set
shutdown; `TaskSet::bind` invokes this on a closed set). -/
def TaskCellM.shutdown (_ : TaskCellM τ ω) : TaskCellM τ ω :=
  ⟨TaskBody.output (Except.error JoinErr.cancelled), true⟩

/-- Modelled from the spec: polling the join handle — if the cell is
Complete, take the output (Output → Empty) and return it ready; otherwise
register the waker and stay pending (spec section 4.2, Join handle). -/
def TaskCellM.joinPoll (c : TaskCellM τ ω) :
    Option (Except JoinErr ω) × TaskCellM τ ω :=
  if c.complete then
    match c.body with
    | TaskBody.output o => (some o, { c with body := TaskBody.empty })
    | _ => (none, c)
  else (none, c)

/-- `TaskSet` state (tasks.rs): registered task list, closed flag, size. -/
structure TaskSetSt (τ ω : Type) where
  list : List (TaskCellM τ ω)
  closed : Bool
  size : Nat
deriving Repr

/-- Result of `TaskSet::bind`: whether a runnable was produced, the cell
the returned join handle observes, and the updated set. -/
structure BindRes (τ ω : Type) where
  runnable : Bool
  cell : TaskCellM τ ω
  set : TaskSetSt τ ω
deriving Repr

/-- `TaskSet::bind` (tasks.rs): allocate a cell; if the set is closed, shut
the new task down at once and produce no runnable; otherwise append it to
the list, bump the size and hand back a runnable. -/
def TaskSetSt.bind (st : TaskSetSt τ ω) (f : τ) : BindRes τ ω :=
  let task : TaskCellM τ ω := TaskCellM.allocate f
  if st.closed then
    ⟨false, task.shutdown, st⟩
  else
    ⟨true, task, { st with list := st.list ++ [task], size := st.size + 1 }⟩

/-- The pop-each loop of `TaskSet::shutdown` (tasks.rs), tracking the size
decrements. -/
def TaskSetSt.shutdownLoop : List (TaskCellM τ ω) → Nat → Nat
  | [], size => size
  | _ :: rest, size => TaskSetSt.shutdownLoop rest (size - 1)

/-- `TaskSet::shutdown` (tasks.rs): mark closed, then pop every task,
shutting each down and decrementing the size. -/
def TaskSetSt.shutdown (st : TaskSetSt τ ω) : TaskSetSt τ ω :=
  ⟨[], true, TaskSetSt.shutdownLoop st.list st.size⟩

/-- `TaskQueue` shared state (taskqueue.rs): the FIFO runqueue (runnables
modelled by spawn sequence numbers) and the task set. -/
structure TaskQueueSt (τ ω : Type) where
  runqueue : List Nat
  taskset : TaskSetSt τ ω
  nextId : Nat
deriving Repr

/-- Result of `TaskQueue::spawn`: the new queue state and the cell the
returned join handle observes. -/
structure SpawnRes (τ ω : Type) where
  queue : TaskQueueSt τ ω
  cell : TaskCellM τ ω
deriving Repr

/-- `TaskQueue::spawn` (taskqueue.rs): bind the future to the task set; if
a runnable came back, schedule it (push to the back of the runqueue). -/
def TaskQueueSt.spawn (st : TaskQueueSt τ ω) (f : τ) : SpawnRes τ ω :=
  let b := st.taskset.bind f
  if b.runnable then
    ⟨⟨st.runqueue ++ [st.nextId], b.set, st.nextId + 1⟩, b.cell⟩
  else
    ⟨⟨st.runqueue, b.set, st.nextId⟩, b.cell⟩

/-- `TaskQueue::next` (taskqueue.rs): pop the front runnable. -/
def TaskQueueSt.next (st : TaskQueueSt τ ω) : Option Nat × TaskQueueSt τ ω :=
  match st.runqueue with
  | [] => (none, st)
  | r :: rest => (some r, { st with runqueue := rest })

/-- `TaskQueue::runnable` (taskqueue.rs): the current queue length. -/
def TaskQueueSt.runnable (st : TaskQueueSt τ ω) : Nat :=
  st.runqueue.length

/-- `TaskQueue::shutdown` (taskqueue.rs): shut down the task set, then
empty the runqueue (`RefCell::take`), dropping the queued runnables without
running any.  Returns the new state and the dropped runnables. -/
def TaskQueueSt.shutdown (st : TaskQueueSt τ ω) : TaskQueueSt τ ω × List Nat :=
  ({ st with taskset := st.taskset.shutdown, runqueue := [] }, st.runqueue)

/-- C5: when the task set is closed, spawning a future drops it immediately
(the bound cell holds no future and is Complete with Cancelled),
`TaskSet::bind` returns no runnable, nothing is enqueued, and the join
handle's first poll resolves ready with the cancelled error. -/
theorem spawn_on_closed_taskset_cancels (τ ω : Type) (st : TaskQueueSt τ ω) (f : τ)
    (h : st.taskset.closed = true) :
    (st.taskset.bind f).runnable = false ∧
    (st.taskset.bind f).cell.body =
      TaskBody.output (Except.error JoinErr.cancelled) ∧
    (st.taskset.bind f).cell.complete = true ∧
    (st.spawn f).queue.runqueue = st.runqueue ∧
    ((st.spawn f).cell.joinPoll).1 = some (Except.error JoinErr.cancelled) := by
  refine ⟨?_, ?_, ?_, ?_, ?_⟩ <;>
    simp [TaskQueueSt.spawn, TaskSetSt.bind, h, TaskCellM.allocate,
      TaskCellM.shutdown, TaskCellM.joinPoll]

/-- Concrete closed task queue used by the C5 witness. -/
def sampleClosedQueue : TaskQueueSt Unit Nat :=
  ⟨[], ⟨[], true, 0⟩, 0⟩

/-- Witness for C5 at the concrete closed queue. -/
theorem spawn_on_closed_taskset_cancels_witness :
    (sampleClosedQueue.taskset.bind ()).runnable = false ∧
    (sampleClosedQueue.spawn ()).queue.runqueue = [] ∧
    ((sampleClosedQueue.spawn ()).cell.joinPoll).1 =
      some (Except.error JoinErr.cancelled) := by
  have h := spawn_on_closed_taskset_cancels Unit Nat sampleClosedQueue () rfl
  exact ⟨h.1, h.2.2.2.1.trans rfl, h.2.2.2.2⟩

/-- C10: `TaskQueue::shutdown` shuts the task set down and empties the run
queue, dropping every already-enqueued runnable without running it (the
dropped list is exactly the former queue); afterwards `next()` returns
`None`, `runnable()` is `0`, and it stays that way because a post-shutdown
spawn produces no runnable and enqueues nothing. -/
theorem taskqueue_shutdown_empties_queue (τ ω : Type) (st : TaskQueueSt τ ω) :
    ((st.shutdown).1).runqueue = [] ∧
    (st.shutdown).2 = st.runqueue ∧
    ((st.shutdown).1).next = (none, (st.shutdown).1) ∧
    ((st.shutdown).1).runnable = 0 ∧
    ((st.shutdown).1).taskset.closed = true ∧
    (∀ f : τ, (((st.shutdown).1).taskset.bind f).runnable = false) ∧
    (∀ f : τ, (((st.shutdown).1).spawn f).queue.runqueue = []) := by
  refine ⟨rfl, rfl, ?_, rfl, rfl, ?_, ?_⟩
  · simp [TaskQueueSt.next, TaskQueueSt.shutdown]
  · intro f
    simp [TaskSetSt.bind, TaskQueueSt.shutdown, TaskSetSt.shutdown]
  · intro f
    simp [TaskQueueSt.spawn, TaskSetSt.bind, TaskQueueSt.shutdown,
      TaskSetSt.shutdown]

/-! ## Executor loop (faser-executor/src/lib.rs `LocalExecutor::block_on`
and wakerfn.rs `FutureHarness`) -/

/-- Result of one poll of the root future; `wake` records whether the
root's flag-waker was invoked during the poll (wakerfn.rs: the waker sets
the shared `poll_root` cell back to true). -/
inductive RootPoll (ω : Type) where
  | ready (out : ω)
  | pending (wake : Bool)
deriving Repr

/-- `FutureHarness` state (wakerfn.rs): the shared `poll_root` flag
(initially true) together with the root future's own state, abstracted as
`ρ`. -/
structure HarnessSt (ρ : Type) where
  pollRoot : Bool
  rootSt : ρ
deriving Repr

/-- `FutureHarness::try_poll` (wakerfn.rs): when the flag is clear, return
`None` without polling; otherwise clear the flag, poll the root once, and
return the output if ready.  A wake delivered during the poll re-sets the
flag. -/
def FutureHarness.tryPoll (poll : ρ → RootPoll ω × ρ) (h : HarnessSt ρ) :
    Option ω × HarnessSt ρ :=
  if h.pollRoot = false then (none, h)
  else
    match poll h.rootSt with
    | (.ready o, r) => (some o, ⟨false, r⟩)
    | (.pending w, r) => (none, ⟨w, r⟩)

/-- Effect of `Runnable::run` on the abstract task environment: the
environment advances, newly woken runnables are appended to the queue, and
the run may wake the root future (a clone of the root's flag-waker). -/
structure TaskStep (σ : Type) where
  env : σ
  spawned : List Nat
  wakeRoot : Bool

/-- Abstract task environment: `run` executes one runnable;
`needsPark` is the driver's `Park::needs_park`. -/
structure TaskModel (σ : Type) where
  run : Nat → σ → TaskStep σ
  needsPark : σ → Bool

/-- Result of the runnable-draining loop of `block_on`. -/
structure DrainRes (σ : Type) where
  queue : List Nat
  env : σ
  ran : List Nat
  wake : Bool

/-- The `while let Some(next) = self.taskqueue.next()` loop of `block_on`
(lib.rs lines 42-47): pop the front runnable, run it, and stop as soon as
`self.park.needs_park()` returns true.  `fuel` bounds the number of
iterations to keep the function total; statements about the loop carry the
budget explicitly. -/
def drainQueue (M : TaskModel σ) : Nat → List Nat → σ → DrainRes σ
  | 0, q, env => ⟨q, env, [], false⟩
  | _ + 1, [], env => ⟨[], env, [], false⟩
  | fuel + 1, t :: q, env =>
    let s := M.run t env
    let q' := q ++ s.spawned
    if M.needsPark s.env then ⟨q', s.env, [t], s.wakeRoot⟩
    else
      let r := drainQueue M fuel q' s.env
      ⟨r.queue, r.env, t :: r.ran, s.wakeRoot || r.wake⟩

/-- Environment after running a list of runnables in order. -/
def runSeq (M : TaskModel σ) : σ → List Nat → σ
  | env, [] => env
  | env, t :: ts => runSeq M (M.run t env).env ts

/-- Executor state at the top of one `block_on` loop iteration. -/
structure ExecSt (ρ σ : Type) where
  harness : HarnessSt ρ
  queue : List Nat
  env : σ

/-- Observables of one `block_on` loop iteration: the returned output (the
loop exits when it is `some`), the harness afterwards, the remaining queue
and environment, whether the root was polled, the runnables run, and the
mode handed to `park.park` (`none` when the iteration returned instead of
parking). -/
structure IterRes (ω ρ σ : Type) where
  result : Option ω
  harness : HarnessSt ρ
  queue : List Nat
  env : σ
  polledRoot : Bool
  ran : List Nat
  parkedMode : Option ParkMode

/-- One iteration of the `block_on` loop (lib.rs lines 38-53): try-poll the
root and return its output if ready; otherwise drain runnables — stopping
on `needs_park` — and end at `park.park(mode)` with mode `NoPark` when the
root is notified and `NextCompletion` otherwise.  Task wakes of the root
during the drain only ever set the flag, so OR-ing them after the drain is
equivalent to the interleaved updates of the running code. -/
def blockOnIter (poll : ρ → RootPoll ω × ρ) (M : TaskModel σ) (fuel : Nat)
    (s : ExecSt ρ σ) : IterRes ω ρ σ :=
  let t := FutureHarness.tryPoll poll s.harness
  match t.1 with
  | some o => ⟨some o, t.2, s.queue, s.env, s.harness.pollRoot, [], none⟩
  | none =>
    let d := drainQueue M fuel s.queue s.env
    ⟨none, ⟨t.2.pollRoot || d.wake, t.2.rootSt⟩, d.queue, d.env,
      s.harness.pollRoot, d.ran,
      some (if t.2.pollRoot || d.wake then ParkMode.noPark
        else ParkMode.nextCompletion)⟩

/-! ### Lemmas about the draining loop -/

/-- The environment the drain loop ends with is the sequential effect of
exactly the runnables it ran. -/
theorem drainQueue_env_runSeq (M : TaskModel σ) :
    ∀ (fuel : Nat) (q : List Nat) (env : σ),
      (drainQueue M fuel q env).env = runSeq M env (drainQueue M fuel q env).ran := by
  intro fuel
  induction fuel with
  | zero => intro q env; simp [drainQueue, runSeq]
  | succ fuel ih =>
    intro q env
    cases q with
    | nil => simp [drainQueue, runSeq]
    | cons t rest =>
      by_cases hp : M.needsPark (M.run t env).env
      · simp [drainQueue, hp, runSeq]
      · simp only [drainQueue, hp, if_false, Bool.false_eq_true]
        rw [ih]
        simp [runSeq]

/-- The drain loop never runs a task past an observed `needs_park`: after
every run but the last, `needs_park` was false. -/
theorem drainQueue_no_overrun (M : TaskModel σ) :
    ∀ (fuel : Nat) (q : List Nat) (env : σ) (k : Nat),
      k + 1 < (drainQueue M fuel q env).ran.length →
      M.needsPark (runSeq M env ((drainQueue M fuel q env).ran.take (k + 1))) = false := by
  intro fuel
  induction fuel with
  | zero => intro q env k h; simp [drainQueue] at h
  | succ fuel ih =>
    intro q env k h
    cases q with
    | nil => simp [drainQueue] at h
    | cons t rest =>
      by_cases hp : M.needsPark (M.run t env).env
      · simp [drainQueue, hp] at h
      · simp only [drainQueue, hp, if_false, Bool.false_eq_true] at h ⊢
        cases k with
        | zero => simpa [runSeq] using hp
        | succ k =>
          simp only [List.length_cons, Nat.add_lt_add_iff_right] at h
          have := ih (rest ++ (M.run t env).spawned) (M.run t env).env k h
          simpa [runSeq] using this

/-- If the drain loop stops with work left over (and did not merely run out
of fuel), then `needs_park` held after the last task it ran. -/
theorem drainQueue_stops_on_needs_park (M : TaskModel σ) :
    ∀ (fuel : Nat) (q : List Nat) (env : σ),
      (drainQueue M fuel q env).queue ≠ [] →
      (drainQueue M fuel q env).ran.length < fuel →
      M.needsPark (drainQueue M fuel q env).env = true := by
  intro fuel
  induction fuel with
  | zero => intro q env _ h; simp [drainQueue] at h
  | succ fuel ih =>
    intro q env hq hlen
    cases q with
    | nil => simp [drainQueue] at hq
    | cons t rest =>
      by_cases hp : M.needsPark (M.run t env).env
      · simp [drainQueue, hp]
      · simp only [drainQueue, hp, if_false, Bool.false_eq_true] at hq hlen ⊢
        simp only [List.length_cons, Nat.add_lt_add_iff_right] at hlen
        exact ih (rest ++ (M.run t env).spawned) (M.run t env).env hq hlen

/-- C1: in each `block_on` loop iteration, the root is polled only when its
notified flag is set — when clear, the root is untouched and nothing is
returned; when set and the poll is ready the iteration returns the result
without draining or parking; when set and pending, the flag was cleared
before the poll and afterwards holds only the poll-time and drain-time
wakes.  The drain runs tasks from the queue and stops as soon as
`needs_park` is true after running a task, and the iteration parks with
`NoPark` exactly when the root ends notified, `NextCompletion` otherwise. -/
theorem block_on_iteration (ρ σ ω : Type) (poll : ρ → RootPoll ω × ρ)
    (M : TaskModel σ) (fuel : Nat) (s : ExecSt ρ σ) :
    (s.harness.pollRoot = false →
      (blockOnIter poll M fuel s).result = none ∧
      (blockOnIter poll M fuel s).harness.rootSt = s.harness.rootSt ∧
      (blockOnIter poll M fuel s).polledRoot = false) ∧
    (∀ o r, s.harness.pollRoot = true → poll s.harness.rootSt = (RootPoll.ready o, r) →
      (blockOnIter poll M fuel s).result = some o ∧
      (blockOnIter poll M fuel s).ran = [] ∧
      (blockOnIter poll M fuel s).parkedMode = none ∧
      (blockOnIter poll M fuel s).harness.rootSt = r) ∧
    (∀ w r, s.harness.pollRoot = true → poll s.harness.rootSt = (RootPoll.pending w, r) →
      (blockOnIter poll M fuel s).result = none ∧
      (blockOnIter poll M fuel s).polledRoot = true ∧
      (blockOnIter poll M fuel s).harness.pollRoot =
        (w || (drainQueue M fuel s.queue s.env).wake)) ∧
    (∀ m, (blockOnIter poll M fuel s).parkedMode = some m →
      (m = ParkMode.noPark ↔ (blockOnIter poll M fuel s).harness.pollRoot = true)) ∧
    ((blockOnIter poll M fuel s).result = none →
      (blockOnIter poll M fuel s).ran = (drainQueue M fuel s.queue s.env).ran ∧
      (blockOnIter poll M fuel s).env =
        runSeq M s.env (blockOnIter poll M fuel s).ran ∧
      (∀ k, k + 1 < (blockOnIter poll M fuel s).ran.length →
        M.needsPark (runSeq M s.env ((blockOnIter poll M fuel s).ran.take (k + 1))) =
          false) ∧
      ((blockOnIter poll M fuel s).queue ≠ [] →
        (blockOnIter poll M fuel s).ran.length < fuel →
        M.needsPark ((blockOnIter poll M fuel s).env) = true)) := by
  by_cases hflag : s.harness.pollRoot = false
  · have htp : FutureHarness.tryPoll poll s.harness = (none, s.harness) := by
      simp [FutureHarness.tryPoll, hflag]
    have hiter : blockOnIter poll M fuel s =
        ⟨none, ⟨s.harness.pollRoot || (drainQueue M fuel s.queue s.env).wake,
          s.harness.rootSt⟩,
          (drainQueue M fuel s.queue s.env).queue,
          (drainQueue M fuel s.queue s.env).env,
          s.harness.pollRoot, (drainQueue M fuel s.queue s.env).ran,
          some (if s.harness.pollRoot || (drainQueue M fuel s.queue s.env).wake
            then ParkMode.noPark else ParkMode.nextCompletion)⟩ := by
      unfold blockOnIter
      rw [htp]
    refine ⟨?_, ?_, ?_, ?_, ?_⟩
    · intro _
      rw [hiter]
      exact ⟨rfl, rfl, hflag⟩
    · intro o r htrue _
      rw [hflag] at htrue; cases htrue
    · intro w r htrue _
      rw [hflag] at htrue; cases htrue
    · intro m hm
      rw [hiter] at hm ⊢
      simp only [Option.some_inj] at hm
      subst hm
      by_cases hw : (s.harness.pollRoot || (drainQueue M fuel s.queue s.env).wake) = true <;>
        simp [hw]
    · intro _
      rw [hiter]
      refine ⟨rfl, drainQueue_env_runSeq M fuel s.queue s.env, ?_, ?_⟩
      · intro k hk
        exact drainQueue_no_overrun M fuel s.queue s.env k hk
      · intro hq hlen
        exact drainQueue_stops_on_needs_park M fuel s.queue s.env hq hlen
  · have hflag' : s.harness.pollRoot = true := by
      cases h : s.harness.pollRoot
      · exact absurd h hflag
      · rfl
    refine ⟨fun h => absurd h hflag, ?_, ?_, ?_, ?_⟩
    · intro o r _ hpoll
      have hiter : blockOnIter poll M fuel s =
          ⟨some o, ⟨false, r⟩, s.queue, s.env, s.harness.pollRoot, [], none⟩ := by
        unfold blockOnIter
        rw [show FutureHarness.tryPoll poll s.harness = (some o, ⟨false, r⟩) by
          simp [FutureHarness.tryPoll, hflag', hpoll]]
      rw [hiter]
      exact ⟨rfl, rfl, rfl, rfl⟩
    · intro w r _ hpoll
      have hiter : blockOnIter poll M fuel s =
          ⟨none, ⟨w || (drainQueue M fuel s.queue s.env).wake, r⟩,
            (drainQueue M fuel s.queue s.env).queue,
            (drainQueue M fuel s.queue s.env).env,
            s.harness.pollRoot, (drainQueue M fuel s.queue s.env).ran,
            some (if w || (drainQueue M fuel s.queue s.env).wake
              then ParkMode.noPark else ParkMode.nextCompletion)⟩ := by
        unfold blockOnIter
        rw [show FutureHarness.tryPoll poll s.harness = (none, ⟨w, r⟩) by
          simp [FutureHarness.tryPoll, hflag', hpoll]]
      rw [hiter]
      exact ⟨rfl, hflag', rfl⟩
    · intro m hm
      unfold blockOnIter at hm ⊢
      rcases htp : FutureHarness.tryPoll poll s.harness with ⟨res, h1⟩
      rw [htp] at hm
      cases res with
      | some o => dsimp only at hm; simp at hm
      | none =>
        dsimp only at hm ⊢
        simp only [Option.some_inj] at hm
        subst hm
        by_cases hw : (h1.pollRoot || (drainQueue M fuel s.queue s.env).wake) = true <;>
          simp [hw]
    · intro hnone
      unfold blockOnIter at hnone ⊢
      rcases htp : FutureHarness.tryPoll poll s.harness with ⟨res, h1⟩
      rw [htp] at hnone
      cases res with
      | some o => dsimp only at hnone; simp at hnone
      | none =>
        dsimp only at hnone ⊢
        refine ⟨rfl, drainQueue_env_runSeq M fuel s.queue s.env, ?_, ?_⟩
        · intro k hk
          exact drainQueue_no_overrun M fuel s.queue s.env k hk
        · intro hq hlen
          exact drainQueue_stops_on_needs_park M fuel s.queue s.env hq hlen

/-- Concrete root future for the C1 witness: pending (without waking) on
its first poll, ready with 42 once its state reaches 1. -/
def sampleRoot (n : Nat) : RootPoll Nat × Nat :=
  if 1 ≤ n then (RootPoll.ready 42, n) else (RootPoll.pending false, n + 1)

/-- Concrete task environment for the C1 witness: running task `t` adds
`t` to the environment; the driver wants to park once the environment
reaches 100. -/
def sampleTasks : TaskModel Nat :=
  ⟨fun t env => ⟨env + t, [], false⟩, fun env => decide (100 ≤ env)⟩

/-- Witness for C1 at concrete states: a ready root returns 42 at once; a
pending root leaves the iteration parking with `NextCompletion`; a task
pushing the environment past 100 stops the drain with work left. -/
theorem block_on_iteration_witness :
    ((blockOnIter sampleRoot sampleTasks 5 ⟨⟨true, 1⟩, [4], 0⟩).result = some 42 ∧
      (blockOnIter sampleRoot sampleTasks 5 ⟨⟨true, 1⟩, [4], 0⟩).ran = []) ∧
    (blockOnIter sampleRoot sampleTasks 5 ⟨⟨true, 0⟩, [4], 0⟩).harness.pollRoot = false ∧
    (ParkMode.nextCompletion = ParkMode.noPark ↔
      (blockOnIter sampleRoot sampleTasks 5 ⟨⟨true, 0⟩, [4], 0⟩).harness.pollRoot = true) ∧
    sampleTasks.needsPark
      ((blockOnIter sampleRoot sampleTasks 5 ⟨⟨false, 0⟩, [150, 7], 0⟩).env) = true := by
  have h1 := (block_on_iteration Nat Nat Nat sampleRoot sampleTasks 5
    ⟨⟨true, 1⟩, [4], 0⟩).2.1 42 1 rfl rfl
  have h2 := (block_on_iteration Nat Nat Nat sampleRoot sampleTasks 5
    ⟨⟨true, 0⟩, [4], 0⟩).2.2.1 false 1 rfl rfl
  have h3 := (block_on_iteration Nat Nat Nat sampleRoot sampleTasks 5
    ⟨⟨true, 0⟩, [4], 0⟩).2.2.2.1 ParkMode.nextCompletion (by decide)
  have h4 := ((block_on_iteration Nat Nat Nat sampleRoot sampleTasks 5
    ⟨⟨false, 0⟩, [150, 7], 0⟩).2.2.2.2 (by decide)).2.2.2 (by decide) (by decide)
  exact ⟨⟨h1.1, h1.2.1⟩, h2.2.2.trans (by decide), h3, h4⟩

end Faser
